import Mathlib

/-!
Verification of the job-scheduling engine in `src/queue/HighConcurrencyQueue.ts`.

The definitions below are a shallow embedding of that TypeScript class:
timestamps are `Int` milliseconds, JavaScript `Map`s become association
lists (insertion order preserved, as in JS), `Set`s of job ids become
`List String`, and the floating-point health score becomes `ℚ` (the code
only clamps with `Math.min`/`Math.max` and multiplies by 0.9, so rationals
carry the logic exactly).  Each definition mirrors one source function and
is named after it.
-/

/-- Health status of a worker, mirroring
`'healthy' | 'unhealthy' | 'degraded'` in `QueueMetrics['workerHealth']`. -/
inductive HealthStatus where
  | healthy
  | degraded
  | unhealthy
deriving DecidableEq, Repr

/-- Per-worker health record, mirroring the entries of `workerHealth`. -/
structure WorkerHealth where
  status : HealthStatus
  lastHealthCheck : Int
  failureRate : ℚ
  responseTime : Int
deriving DecidableEq, Repr

/-- A job envelope, mirroring the `QueueJob` interface.  The opaque
`data` payload is reduced to the two fields `generateRateLimitKey`
actually reads (`data.userId`, `data.model`); the nested `circuitBreaker`
mirror field is inspection-only in the source and is dropped here. -/
structure QueueJob where
  id : String
  type : String
  dataUserId : Option String
  dataModel : Option String
  priority : Int
  attempts : Nat
  maxAttempts : Nat
  delay : Nat
  createdAt : Int
  scheduledAt : Int
  startedAt : Option Int := none
  completedAt : Option Int := none
  failedAt : Option Int := none
  error : Option String := none
deriving DecidableEq, Repr

/-- A worker descriptor, mirroring the `QueueWorker` interface; the
handler itself is the opaque boundary and is not part of the state. -/
structure QueueWorker where
  id : String
  type : String
  concurrency : Nat
  activeJobs : List String
  weight : Nat
deriving DecidableEq, Repr

/-- Mirror of `RateLimitConfig` (the optional `keyGenerator` is absent in
the default configuration modelled here). -/
structure RateLimitConfig where
  windowMs : Int
  maxRequests : Nat
deriving DecidableEq, Repr

/-- Mirror of `CircuitBreakerConfig`. -/
structure CircuitBreakerConfig where
  failureThreshold : Nat
  resetTimeout : Int
  monitoringPeriod : Int
deriving DecidableEq, Repr

/-- One entry of the `circuitBreakers` map: a failure-timestamp list plus
its configuration, mirroring `{ failures: number[]; config: CircuitBreakerConfig }`. -/
structure BreakerEntry where
  failures : List Int
  config : CircuitBreakerConfig
deriving DecidableEq, Repr

/-- One entry of the `rateLimitStore` map:
`{ count: number; resetTime: number }`. -/
structure RateLimitEntry where
  count : Nat
  resetTime : Int
deriving DecidableEq, Repr

/-- Association-list lookup standing in for JavaScript `Map.get`. -/
def mapGet {α : Type} (m : List (String × α)) (k : String) : Option α :=
  match m with
  | [] => none
  | (k', v) :: rest => if k' = k then some v else mapGet rest k

/-- Association-list update standing in for JavaScript `Map.set`: replaces
the value in place when the key exists (JS keeps the original insertion
position), otherwise appends. -/
def mapSet {α : Type} (m : List (String × α)) (k : String) (v : α) : List (String × α) :=
  match m with
  | [] => [(k, v)]
  | (k', v') :: rest =>
      if k' = k then (k', v) :: rest else (k', v') :: mapSet rest k v

/-- Association-list removal standing in for JavaScript `Map.delete`.
A JS `Map` holds each key at most once, so removing every entry for the
key is the faithful meaning. -/
def mapDelete {α : Type} (m : List (String × α)) (k : String) : List (String × α) :=
  m.filter (fun kv => kv.1 ≠ k)

/-- JavaScript `a || b` on a possibly-absent string: `''` is falsy. -/
def jsOrStr (a : Option String) (b : String) : String :=
  match a with
  | none => b
  | some v => if v = "" then b else v

/-! ### Rate limiter — `checkRateLimit` (source lines 417–435) -/

/-- `checkRateLimit(key)`: admits and updates the window exactly as the
source does.  Returns the boolean verdict together with the updated
`rateLimitStore`. -/
def checkRateLimit (cfg : RateLimitConfig) (store : List (String × RateLimitEntry))
    (key : String) (now : Int) : Bool × List (String × RateLimitEntry) :=
  match mapGet store key with
  | none => (true, mapSet store key { count := 1, resetTime := now + cfg.windowMs })
  | some limit =>
      if limit.resetTime ≤ now then
        (true, mapSet store key { count := 1, resetTime := now + cfg.windowMs })
      else if cfg.maxRequests ≤ limit.count then
        (false, store)
      else
        (true, mapSet store key { limit with count := limit.count + 1 })

/-! ### Health tracker — `recordSuccess` / `recordFailure` health half
(source lines 465–478) -/

/-- The failure-rate decay applied by `recordSuccess`:
`Math.max(0, failureRate * 0.9)`. -/
def recordSuccessRate (r : ℚ) : ℚ := max 0 (r * (9/10))

/-- The failure-rate bump applied by `recordFailure`:
`Math.min(1, failureRate * 0.9 + 0.1)`. -/
def recordFailureRate (r : ℚ) : ℚ := min 1 (r * (9/10) + 1/10)

/-- The health update performed by `recordFailure` (lines 474–478):
bump the decayed failure rate, then set
`status = failureRate > 0.5 ? 'unhealthy' : 'degraded'`. -/
def recordFailureHealth (h : WorkerHealth) : WorkerHealth :=
  let rate := recordFailureRate h.failureRate
  { h with
      failureRate := rate
      status := if (1/2 : ℚ) < rate then .unhealthy else .degraded }

/-- An abstract interleaving of handler outcomes observed by one worker's
health record. -/
inductive HealthOp where
  | success
  | failure
deriving DecidableEq, Repr

/-- Apply one observation to the tracked failure rate, as
`recordSuccess`/`recordFailure` do. -/
def applyHealthOp (r : ℚ) : HealthOp → ℚ
  | .success => recordSuccessRate r
  | .failure => recordFailureRate r

/-- Run a sequence of observations against the tracked failure rate. -/
def runHealthOps (r : ℚ) (ops : List HealthOp) : ℚ :=
  ops.foldl applyHealthOp r

/-! ### Circuit breaker — `checkCircuitBreaker` / `recordFailure` breaker
half / `resetCircuitBreaker` (source lines 447–463, 480–485, 846–848) -/

/-- `checkCircuitBreaker(workerId)`: `true` means dispatch may proceed
(the breaker is not open).  Faithful to lines 447–463: a worker with no
entry in the `circuitBreakers` map passes; otherwise failures younger
than `monitoringPeriod` are counted, and if they reach the threshold and
the most recent one is younger than `resetTimeout` the check fails.
`Math.max(...[])` on an empty JS array is `-Infinity`, which makes the
inner test false; the `List.max? = none` branch mirrors that. -/
def checkCircuitBreaker (breakers : List (String × BreakerEntry))
    (workerId : String) (now : Int) : Bool :=
  match mapGet breakers workerId with
  | none => true
  | some breaker =>
      let recentFailures := breaker.failures.filter
        (fun time => now - time < breaker.config.monitoringPeriod)
      if breaker.config.failureThreshold ≤ recentFailures.length then
        match recentFailures.max? with
        | none => true
        | some lastFailure => decide (breaker.config.resetTimeout ≤ now - lastFailure)
      else
        true

/-- The breaker half of `recordFailure` (lines 480–485): if the worker
has a breaker entry, push `now` and prune entries at or before
`now - monitoringPeriod`; a worker without an entry is left untouched. -/
def recordFailureBreaker (breakers : List (String × BreakerEntry))
    (workerId : String) (now : Int) : List (String × BreakerEntry) :=
  match mapGet breakers workerId with
  | none => breakers
  | some breaker =>
      let failures := breaker.failures ++ [now]
      let cutoff := now - breaker.config.monitoringPeriod
      mapSet breakers workerId
        { breaker with failures := failures.filter (fun time => cutoff < time) }

/-- The operations the class ever performs on the `circuitBreakers` map.
`register` mirrors `registerWorker` (lines 281–314), which touches
`workers` and `workerHealth` but never seeds `circuitBreakers`;
`reset` mirrors `resetCircuitBreaker`. -/
inductive BreakerOp where
  | register (workerId : String)
  | record (workerId : String) (now : Int)
  | reset (workerId : String)

/-- Apply one `circuitBreakers`-relevant operation of the class. -/
def applyBreakerOp (breakers : List (String × BreakerEntry)) :
    BreakerOp → List (String × BreakerEntry)
  | .register _ => breakers
  | .record workerId now => recordFailureBreaker breakers workerId now
  | .reset workerId => mapDelete breakers workerId

/-- The `circuitBreakers` map reachable after any sequence of class
operations, starting from the initial empty map (line 132). -/
def runBreakerOps (ops : List BreakerOp) : List (String × BreakerEntry) :=
  ops.foldl applyBreakerOp []

/-! ### Retry / failure manager — `handleJobError` (source lines 549–587) -/

/-- What `handleJobError` does beyond mutating the job record: schedule a
re-entry timer and emit `job:retry`, or append to `failedJobs` and emit
`job:failed`. -/
inductive ErrorOutcome where
  | retryScheduled (retryDelay : Nat)
  | failedPermanently
deriving DecidableEq, Repr

/-- `handleJobError(job, worker, error)` restricted to the job record and
the retry decision.  `retryDelay = delay * retryDelayMultiplier ^ (attempts - 1)`
on the retry branch; `failedAt` is set on the terminal branch, which
schedules nothing. -/
def handleJobError (retryDelayMultiplier : Nat) (job : QueueJob)
    (errMsg : String) (now : Int) : QueueJob × ErrorOutcome :=
  let job := { job with error := some errMsg }
  if job.attempts < job.maxAttempts then
    let retryDelay := job.delay * retryDelayMultiplier ^ (job.attempts - 1)
    ({ job with scheduledAt := now + retryDelay }, .retryScheduled retryDelay)
  else
    ({ job with failedAt := some now }, .failedPermanently)

/-- One attempt cycle of a job under an always-failing handler:
`processJob` increments `attempts` (line 379), the handler throws, and
`handleJobError` decides.  `failLoop` returns the list of retry delays
that were scheduled and the final attempt count; `fuel` bounds the
number of dispatch cycles considered. -/
def failLoop (retryDelayMultiplier : Nat) (maxAttempts delay : Nat) :
    Nat → Nat → List Nat × Nat
  | 0, attempts => ([], attempts)
  | fuel + 1, attempts =>
      let attempts' := attempts + 1
      if attempts' < maxAttempts then
        let retryDelay := delay * retryDelayMultiplier ^ (attempts' - 1)
        let rest := failLoop retryDelayMultiplier maxAttempts delay fuel attempts'
        (retryDelay :: rest.1, rest.2)
      else
        ([], attempts')

/-! ### Cleanup — `cleanup` (source lines 683–712) -/

/-- JavaScript `a || b` on a possibly-absent number: `0` is falsy. -/
def jsOrZero (a : Option Int) (b : Int) : Int :=
  match a with
  | none => b
  | some v => if v = 0 then b else v

/-- The slice of queue state `cleanup` reads and writes, plus the
collections the claim says it must not touch. -/
structure CleanupState where
  jobs : List (String × QueueJob)
  waitingQueue : List QueueJob
  processingJobs : List String
  completedJobs : List QueueJob
  failedJobs : List QueueJob
deriving DecidableEq, Repr

/-- `cleanup()` as written: filter `completedJobs` and `failedJobs` to
records younger than 24 hours, then walk `[...this.completedJobs,
...this.failedJobs]` — the lists **after** filtering — deleting from the
`jobs` map any walked record older than the horizon. -/
def cleanup (s : CleanupState) (now : Int) : CleanupState :=
  let oneDayAgo := now - 24 * 60 * 60 * 1000
  let completedJobs := s.completedJobs.filter
    (fun job => oneDayAgo < jsOrZero job.completedAt 0)
  let failedJobs := s.failedJobs.filter
    (fun job => oneDayAgo < jsOrZero job.failedAt 0)
  let jobs := (completedJobs ++ failedJobs).foldl
    (fun m job =>
      if jsOrZero job.completedAt (jsOrZero job.failedAt 0) ≤ oneDayAgo then
        mapDelete m job.id
      else m)
    s.jobs
  { s with
      jobs := jobs
      completedJobs := completedJobs
      failedJobs := failedJobs }

/-! ### Submission — `add` (source lines 222–279) -/

/-- The option bag accepted by `add`; absent fields fall back to
`defaultJobOptions` (`attempts: 3, delay: 0, priority: 5`). -/
structure AddOptions where
  priority : Option Int := none
  delay : Option Nat := none
  attempts : Option Nat := none
  jobId : Option String := none
  rateLimitKey : Option String := none
deriving DecidableEq, Repr

/-- `generateRateLimitKey(type, data)` with the default configuration
(no custom `keyGenerator`): `type:userId:model` with the falsy fallbacks
`'anonymous'` and `'default'`. -/
def generateRateLimitKey (jobType : String)
    (dataUserId dataModel : Option String) : String :=
  jobType ++ ":" ++ jsOrStr dataUserId "anonymous" ++ ":" ++ jsOrStr dataModel "default"

/-- The slice of queue state `add` reads and writes.  `pendingTimers`
records the `setTimeout` deferrals scheduled for delayed jobs
(`(jobId, fireAt)`); `rateLimitHits` is the metrics counter bumped on
rejection. -/
structure SubmitState where
  jobs : List (String × QueueJob)
  waitingQueue : List QueueJob
  rateLimitStore : List (String × RateLimitEntry)
  rateLimitHits : Nat
  pendingTimers : List (String × Int)
deriving DecidableEq, Repr

/-- Outcome of `add`: the returned job id, or the thrown
`Rate limit exceeded` error carrying the saturated key. -/
inductive AddResult where
  | accepted (jobId : String)
  | rateLimitExceeded (key : String)
deriving DecidableEq, Repr

/-- `add(type, data, options)`: rate-limit gate first (throwing before
any job is created), then job construction, store insertion, and either
an immediate enqueue (`scheduledAt <= now`) or a deferral timer.
`genId` stands for the fresh id `generateJobId()` would draw. -/
def add (cfg : RateLimitConfig) (s : SubmitState) (jobType : String)
    (dataUserId dataModel : Option String) (opts : AddOptions)
    (genId : String) (now : Int) : AddResult × SubmitState :=
  let key := jsOrStr opts.rateLimitKey (generateRateLimitKey jobType dataUserId dataModel)
  let checked := checkRateLimit cfg s.rateLimitStore key now
  if checked.1 = false then
    (.rateLimitExceeded key,
     { s with rateLimitStore := checked.2, rateLimitHits := s.rateLimitHits + 1 })
  else
    let s := { s with rateLimitStore := checked.2 }
    let priority := opts.priority.getD 5
    let maxAttempts := opts.attempts.getD 3
    let delay := opts.delay.getD 0
    let jobId := jsOrStr opts.jobId genId
    let job : QueueJob :=
      { id := jobId
        type := jobType
        dataUserId := dataUserId
        dataModel := dataModel
        priority := priority
        attempts := 0
        maxAttempts := maxAttempts
        delay := delay
        createdAt := now
        scheduledAt := now + delay }
    let s := { s with jobs := mapSet s.jobs jobId job }
    if job.scheduledAt ≤ now then
      (.accepted jobId, { s with waitingQueue := s.waitingQueue ++ [job] })
    else
      (.accepted jobId, { s with pendingTimers := s.pendingTimers ++ [(jobId, job.scheduledAt)] })

/-! ### Dispatcher — `processNextJobs` / `findAvailableWorker` /
`processJob` synchronous prefix (source lines 334–415, 488–547) -/

/-- The ordering the dispatch pass sorts by:
`(b, a) => b.priority - a.priority`, ties by `a.createdAt - b.createdAt`.
`jobLE a b` holds when the comparator puts `a` no later than `b`. -/
def jobLE (a b : QueueJob) : Prop :=
  b.priority < a.priority ∨ (a.priority = b.priority ∧ a.createdAt ≤ b.createdAt)

instance : DecidableRel jobLE := fun a b => by
  unfold jobLE; infer_instance

/-- The stable sort `this.waitingQueue.sort(...)` performs (JS `sort` is
stable; any stable sort for the same total preorder yields the same
list, so insertion sort is an exact model). -/
def sortJobs (jobs : List QueueJob) : List QueueJob :=
  List.insertionSort jobLE jobs

/-- Load-balancing strategy, mirroring `LoadBalancingConfig['strategy']`. -/
inductive LBStrategy where
  | roundRobin
  | leastConnections
  | weighted
  | priorityBased
deriving DecidableEq, Repr

/-- The dispatcher configuration the pass consults. -/
structure DispatchConfig where
  maxConcurrency : Nat
  strategy : LBStrategy
  weights : List (String × ℚ)
deriving DecidableEq, Repr

/-- The queue state a dispatch pass reads and writes.  `startedOrder` is
the observation trace: the `(jobId, workerId)` pairs in the order
`processJob` assignments happen (the order `job:started` fires).
`pendingEnqueues` holds jobs parked by the circuit-breaker deferral
timer. -/
structure DispatchState where
  waitingQueue : List QueueJob
  workers : List QueueWorker
  workerHealth : List (String × WorkerHealth)
  processingJobs : List String
  jobLocks : List (String × String)
  circuitBreakers : List (String × BreakerEntry)
  pendingEnqueues : List QueueJob
  startedOrder : List (String × String)
  roundRobinIndex : Nat
deriving DecidableEq, Repr

/-- `selectLeastConnections`: `workers.reduce(...)` keeping the first
worker with the strictly smallest `activeJobs` count. -/
def selectLeastConnections : List QueueWorker → Option QueueWorker
  | [] => none
  | w :: ws =>
      some (ws.foldl (fun m x => if x.activeJobs.length < m.activeJobs.length then x else m) w)

/-- `weightMap.get(w.id) || w.weight || 1` (JS falsy chain on numbers). -/
def jsWeight (weights : List (String × ℚ)) (w : QueueWorker) : ℚ :=
  let base : ℚ := if w.weight = 0 then 1 else (w.weight : ℚ)
  match mapGet weights w.id with
  | none => base
  | some q => if q = 0 then base else q

/-- The subtraction loop inside `selectWeighted`. -/
def weightedPick (weights : List (String × ℚ)) : List QueueWorker → ℚ → Option QueueWorker
  | [], _ => none
  | w :: ws, r =>
      let r' := r - jsWeight weights w
      if r' ≤ 0 then some w else weightedPick weights ws r'

/-- `selectWeighted`: a draw proportional to weight; `rand01` stands for
the `Math.random()` sample. -/
def selectWeighted (weights : List (String × ℚ)) (workers : List QueueWorker)
    (rand01 : ℚ) : Option QueueWorker :=
  let totalWeight := workers.foldl (fun acc w => acc + jsWeight weights w) 0
  match weightedPick weights workers (rand01 * totalWeight) with
  | some w => some w
  | none => workers.head?

/-- `selectPriority`: `workers.sort((a, b) => a.activeJobs.size - b.activeJobs.size)[0]`. -/
def selectPriority (workers : List QueueWorker) : Option QueueWorker :=
  (List.insertionSort (fun a b => a.activeJobs.length ≤ b.activeJobs.length) workers).head?

/-- `findAvailableWorker(jobType)` (lines 488–518): filter by `type`,
then by health (`'healthy'` or untracked), fall back to `workers[0]`
when no healthy worker exists, else delegate to the configured strategy.
Note: no strategy consults `concurrency`.  Returns the choice and the
updated `roundRobinIndex`; `rand01` feeds the weighted draw. -/
def findAvailableWorker (cfg : DispatchConfig) (s : DispatchState)
    (jobType : String) (rand01 : ℚ) : Option QueueWorker × Nat :=
  let workers := s.workers.filter (fun w => w.type = jobType)
  if workers.isEmpty then (none, s.roundRobinIndex)
  else
    let healthyWorkers := workers.filter (fun w =>
      match mapGet s.workerHealth w.id with
      | none => true
      | some h => h.status = .healthy)
    if healthyWorkers.isEmpty then (workers.head?, s.roundRobinIndex)
    else
      match cfg.strategy with
      | .roundRobin =>
          (healthyWorkers.get? (s.roundRobinIndex % healthyWorkers.length),
           (s.roundRobinIndex + 1) % healthyWorkers.length)
      | .leastConnections => (selectLeastConnections healthyWorkers, s.roundRobinIndex)
      | .weighted => (selectWeighted cfg.weights healthyWorkers rand01, s.roundRobinIndex)
      | .priorityBased => (selectPriority healthyWorkers, s.roundRobinIndex)

/-- The synchronous prefix of `processJob(job, worker)` (lines 363–390):
circuit-breaker gate (deferral timer on open), duplicate-processing gate
on `jobLocks`, then lock, `processingJobs.add`, `worker.activeJobs.add`
and the `job:started` emission.  The job-record mutations
(`startedAt`, `attempts++`) live in the `jobs` map, which the retry
model (`failLoop`) tracks. -/
def processJobSync (s : DispatchState) (job : QueueJob) (w : QueueWorker)
    (now : Int) : DispatchState :=
  if checkCircuitBreaker s.circuitBreakers w.id now = false then
    { s with pendingEnqueues := s.pendingEnqueues ++ [job] }
  else if (mapGet s.jobLocks job.id).isSome then
    s
  else
    { s with
        jobLocks := mapSet s.jobLocks job.id w.id
        processingJobs := s.processingJobs ++ [job.id]
        workers := s.workers.map (fun x =>
          if x.id = w.id then { x with activeJobs := x.activeJobs ++ [job.id] } else x)
        startedOrder := s.startedOrder ++ [(job.id, w.id)] }

/-- The `for (const job of this.waitingQueue)` loop of `processNextJobs`
(lines 346–360), including its JavaScript iterator semantics: the array
iterator reads index `k` of the **current** array, so splicing the
dispatched job out shifts the remainder left and the next iteration
skips one element.  `fuel` only bounds recursion depth; started at the
array length it never runs out before the iterator does (each step
increments `k` and never lengthens the array). -/
def dispatchLoop (cfg : DispatchConfig) (now : Int) :
    Nat → Nat → DispatchState → DispatchState
  | 0, _, s => s
  | fuel + 1, k, s =>
      if h : k < s.waitingQueue.length then
        if cfg.maxConcurrency ≤ s.processingJobs.length then s
        else
          let job := s.waitingQueue.get ⟨k, h⟩
          match findAvailableWorker cfg s job.type 0 with
          | (none, rr) =>
              dispatchLoop cfg now fuel (k + 1) { s with roundRobinIndex := rr }
          | (some w, rr) =>
              let jobIndex := s.waitingQueue.indexOf job
              let s' := { s with
                roundRobinIndex := rr
                waitingQueue := s.waitingQueue.eraseIdx jobIndex }
              dispatchLoop cfg now fuel (k + 1) (processJobSync s' job w now)
      else s

/-- `processNextJobs()` (lines 334–361): early return on an empty queue
or an exhausted global cap, stable-sort the waiting queue by
`(priority desc, createdAt asc)`, then run the dispatch walk. -/
def processNextJobs (cfg : DispatchConfig) (now : Int) (s : DispatchState) : DispatchState :=
  if s.waitingQueue.length = 0 ∨ cfg.maxConcurrency ≤ s.processingJobs.length then s
  else
    let sorted := { s with waitingQueue := sortJobs s.waitingQueue }
    dispatchLoop cfg now sorted.waitingQueue.length 0 sorted

/-! ### Per-job lock discipline (source lines 363–415, 549–593)

The event loop runs each synchronous segment of the class atomically;
the segments that move a job id between the waiting queue, the deferral
timers and a worker's `activeJobs` set are modelled as the transitions
below.  For this claim the order of the waiting queue is irrelevant
(sorting it is a permutation), so `waiting`, `pending` and `active` are
multisets; the ordered walk is modelled exactly by `dispatchLoop`
above. -/

/-- The job-location state: which ids sit in the waiting queue, which
sit behind a pending re-enqueue timer (retry backoff at lines 568–572 or
breaker deferral at line 367), which worker locks each id
(`jobLocks`), and the `(workerId, jobId)` membership of all
`activeJobs` sets. -/
structure LockState where
  waiting : Multiset String
  pending : Multiset String
  locks : List (String × String)
  active : Multiset (String × String)

/-- The queue starts with every collection empty. -/
def initLockState : LockState :=
  { waiting := 0, pending := 0, locks := [], active := 0 }

/-- One atomic synchronous segment of the class, as it moves job ids.

* `addFresh`: `add`/`enqueueJob` for a newly created job; `generateJobId`
  draws an id unused anywhere in the system.
* `dispatchAssign`: `processNextJobs` splices the job out of the waiting
  queue and `processJob` passes the breaker check, finds `jobLocks` free
  (line 372), takes the lock and adds the id to `processingJobs` and the
  worker's `activeJobs`.
* `dispatchDrop`: same splice, but `jobLocks` already holds the id, so
  `processJob` logs and returns (lines 372–375).
* `breakerDefer`: same splice, but the breaker check fails, so the job is
  parked behind a 5 s re-enqueue timer (lines 365–369).
* `finish`: handler completion or permanent failure — the id leaves the
  lock map and the worker's `activeJobs` (lines 397–399, 406–408).
* `failRetry`: handler failure with attempts remaining — same removal,
  then `handleJobError` parks the id behind the retry timer.
* `timerFire`: a pending timer fires and `enqueueJob` pushes the id back
  onto the waiting queue (lines 589–593). -/
inductive QStep : LockState → LockState → Prop where
  | addFresh (s : LockState) (j : String) :
      j ∉ s.waiting → j ∉ s.pending → mapGet s.locks j = none →
      (∀ w, (w, j) ∉ s.active) →
      QStep s { s with waiting := j ::ₘ s.waiting }
  | dispatchAssign (s : LockState) (j w : String) :
      j ∈ s.waiting → mapGet s.locks j = none →
      QStep s { s with
        waiting := s.waiting.erase j
        locks := mapSet s.locks j w
        active := (w, j) ::ₘ s.active }
  | dispatchDrop (s : LockState) (j w' : String) :
      j ∈ s.waiting → mapGet s.locks j = some w' →
      QStep s { s with waiting := s.waiting.erase j }
  | breakerDefer (s : LockState) (j : String) :
      j ∈ s.waiting →
      QStep s { s with waiting := s.waiting.erase j, pending := j ::ₘ s.pending }
  | finish (s : LockState) (j w : String) :
      mapGet s.locks j = some w →
      QStep s { s with locks := mapDelete s.locks j, active := s.active.erase (w, j) }
  | failRetry (s : LockState) (j w : String) :
      mapGet s.locks j = some w →
      QStep s { s with
        locks := mapDelete s.locks j
        active := s.active.erase (w, j)
        pending := j ::ₘ s.pending }
  | timerFire (s : LockState) (j : String) :
      j ∈ s.pending →
      QStep s { s with pending := s.pending.erase j, waiting := j ::ₘ s.waiting }

/-- States reachable from the initial queue state. -/
inductive QReachable : LockState → Prop where
  | init : QReachable initLockState
  | step {s s' : LockState} : QReachable s → QStep s s' → QReachable s'

/-- The location invariant: each id lives in at most one of
waiting/pending/active (counted with multiplicity), membership of a
worker's `activeJobs` is registered in `jobLocks`, and every held lock
points at an actual active assignment. -/
def lockInv (s : LockState) : Prop :=
  (∀ j : String,
      s.waiting.count j + s.pending.count j + (s.active.map Prod.snd).count j ≤ 1) ∧
  (∀ w j, (w, j) ∈ s.active → mapGet s.locks j = some w) ∧
  (∀ w j, mapGet s.locks j = some w → (w, j) ∈ s.active)

/-! ### Concrete inputs used by the evaluation and witness theorems -/

/-- A worker of type `llm_request` with `concurrency: 1`, as registered
by `registerWorker('llm_request', handler, { concurrency: 1 })`. -/
def exWorker : QueueWorker :=
  { id := "w1", type := "llm_request", concurrency := 1, activeJobs := [], weight := 1 }

/-- The health record `registerWorker` seeds (lines 303–308). -/
def freshHealth : WorkerHealth :=
  { status := .healthy, lastHealthCheck := 0, failureRate := 0, responseTime := 0 }

/-- Default-like dispatcher configuration: `maxConcurrency: 10`,
`least-connections`. -/
def exCfg : DispatchConfig :=
  { maxConcurrency := 10, strategy := .leastConnections, weights := [] }

/-- A minimal job record of type `llm_request`. -/
def mkJob (id : String) (pr : Int) (ca : Int) : QueueJob :=
  { id := id
    type := "llm_request"
    dataUserId := none
    dataModel := none
    priority := pr
    attempts := 0
    maxAttempts := 3
    delay := 0
    createdAt := ca
    scheduledAt := ca }

/-- Three equal-priority jobs waiting, one concurrency-1 worker. -/
def exStateOvercommit : DispatchState :=
  { waitingQueue := [mkJob "a" 5 0, mkJob "b" 5 1, mkJob "c" 5 2]
    workers := [exWorker]
    workerHealth := [("w1", freshHealth)]
    processingJobs := []
    jobLocks := []
    circuitBreakers := []
    pendingEnqueues := []
    startedOrder := []
    roundRobinIndex := 0 }

/-- Jobs submitted with priorities `[3, 9, 5]` (arrival order `a, b, c`,
equal `createdAt`), one worker, nothing yet processing. -/
def exStateOrdering : DispatchState :=
  { exStateOvercommit with
      waitingQueue := [mkJob "a" 3 0, mkJob "b" 9 0, mkJob "c" 5 0] }

/-- Look a worker up in a dispatch state by id. -/
def findWorker (s : DispatchState) (workerId : String) : Option QueueWorker :=
  s.workers.find? (fun w => w.id = workerId)

/-- A completed job whose `completedAt` (1000 ms after epoch) is far
older than the 24 h retention horizon at cleanup time. -/
def exJobOld : QueueJob :=
  { mkJob "old" 5 0 with completedAt := some 1000 }

/-- A still-waiting job as old as `exJobOld`. -/
def exJobWaiting : QueueJob := mkJob "act" 5 0

/-- Cleanup input: the stale completed job is in both the record list and
the `jobs` map; an equally old job is still waiting. -/
def exCleanupState : CleanupState :=
  { jobs := [("old", exJobOld), ("act", exJobWaiting)]
    waitingQueue := [exJobWaiting]
    processingJobs := []
    completedJobs := [exJobOld]
    failedJobs := [] }

/-- Cleanup runs 25 hours after epoch. -/
def exCleanupNow : Int := 90000000

/-- A health record with the failure rate already saturated at 1. -/
def exHealthSaturated : WorkerHealth :=
  { status := .healthy, lastHealthCheck := 0, failureRate := 1, responseTime := 0 }

/-- Rate-limit configuration of the spec's concrete scenario:
window 1000 ms, max 2. -/
def rlCfg : RateLimitConfig := { windowMs := 1000, maxRequests := 2 }

/-- Store after the first admission under key `k` at `t = 0`. -/
def rlStore1 : List (String × RateLimitEntry) := (checkRateLimit rlCfg [] "k" 0).2

/-- Store after the second admission under key `k` at `t = 1`. -/
def rlStore2 : List (String × RateLimitEntry) := (checkRateLimit rlCfg rlStore1 "k" 1).2

/-- Submission state whose window for key `k` is saturated
(`count = 2 = maxRequests`, window open until `t = 1000`). -/
def exSubmitState : SubmitState :=
  { jobs := []
    waitingQueue := []
    rateLimitStore := [("k", { count := 2, resetTime := 1000 })]
    rateLimitHits := 0
    pendingTimers := [] }

/-- Options pinning the rate-limit key to `k`. -/
def exAddOpts : AddOptions := { rateLimitKey := some "k" }

/-- A job mid-retry: one failed attempt out of three, base delay 100 ms. -/
def exJobRetry : QueueJob :=
  { mkJob "r" 5 0 with attempts := 1, delay := 100 }

/-- The lock-model state after submitting one fresh job `j1`. -/
def exLockState : LockState :=
  { waiting := "j1" ::ₘ 0, pending := 0, locks := [], active := 0 }

/-! ## Theorems -/

/-- Looking up the key just set yields the new value. -/
theorem mapGet_mapSet_self {α : Type} (m : List (String × α)) (k : String) (v : α) :
    mapGet (mapSet m k v) k = some v := by
  induction m with
  | nil => simp [mapGet, mapSet]
  | cons hd tl ih =>
      obtain ⟨k', v'⟩ := hd
      by_cases h : k' = k <;> simp [mapGet, mapSet, h, ih]

/-- Setting one key leaves lookups of other keys unchanged. -/
theorem mapGet_mapSet_ne {α : Type} (m : List (String × α)) {k₁ k₂ : String} (v : α)
    (h : k₁ ≠ k₂) : mapGet (mapSet m k₁ v) k₂ = mapGet m k₂ := by
  induction m with
  | nil => simp [mapGet, mapSet, h]
  | cons hd tl ih =>
      obtain ⟨k', v'⟩ := hd
      by_cases hk : k' = k₁
      · subst hk
        simp [mapGet, mapSet, h]
      · simp [mapGet, mapSet, hk, ih]

/-- Looking up a deleted key yields nothing. -/
theorem mapGet_mapDelete_self {α : Type} (m : List (String × α)) (k : String) :
    mapGet (mapDelete m k) k = none := by
  induction m with
  | nil => simp [mapGet, mapDelete]
  | cons hd tl ih =>
      obtain ⟨k', v'⟩ := hd
      by_cases h : k' = k <;> simp [mapGet, mapDelete, h] at ih ⊢ <;> exact ih

/-- Deleting one key leaves lookups of other keys unchanged. -/
theorem mapGet_mapDelete_ne {α : Type} (m : List (String × α)) {k₁ k₂ : String}
    (h : k₁ ≠ k₂) : mapGet (mapDelete m k₁) k₂ = mapGet m k₂ := by
  induction m with
  | nil => simp [mapGet, mapDelete]
  | cons hd tl ih =>
      obtain ⟨k', v'⟩ := hd
      by_cases hk : k' = k₁
      · subst hk
        simp [mapGet, mapDelete, h, Ne.symm h] at ih ⊢
        exact ih
      · by_cases hk2 : k' = k₂
        · subst hk2
          simp [mapGet, mapDelete, hk]
        · simp [mapGet, mapDelete, hk, hk2] at ih ⊢
          exact ih

/-- A single class operation maps the empty breaker registry to itself. -/
theorem applyBreakerOp_nil (op : BreakerOp) : applyBreakerOp [] op = [] := by
  cases op <;> rfl

/-- No sequence of class operations ever populates `circuitBreakers`:
the class never calls `circuitBreakers.set`. -/
theorem runBreakerOps_eq_nil (ops : List BreakerOp) : runBreakerOps ops = [] := by
  unfold runBreakerOps
  induction ops with
  | nil => rfl
  | cons op rest ih =>
      rw [List.foldl_cons, applyBreakerOp_nil]
      exact ih

/-- C1: the dispatcher's circuit-breaker check never reports any worker
open, because nothing in the class ever seeds the `circuitBreakers`
map — `registerWorker` omits it and `recordFailure` only appends to an
existing entry.  In particular a worker whose handler just failed five
times (the default `failureThreshold`) inside the monitoring period,
checked within `resetTimeout` of the last failure, is still reported
closed, contradicting the claimed iff (its right-hand side holds, its
left-hand side does not). -/
theorem circuitBreaker_never_opens :
    (∀ (ops : List BreakerOp) (workerId : String) (now : Int),
        checkCircuitBreaker (runBreakerOps ops) workerId now = true) ∧
    checkCircuitBreaker (runBreakerOps
        [.register "w1", .record "w1" 0, .record "w1" 1, .record "w1" 2,
         .record "w1" 3, .record "w1" 4]) "w1" 4 = true := by
  constructor
  · intro ops workerId now
    rw [runBreakerOps_eq_nil]
    rfl
  · rw [runBreakerOps_eq_nil]
    rfl

/-- For a worker whose breaker entry does exist (which the class never
creates), the check itself matches the spec's `isOpen` formula: open iff
the count of failures younger than `monitoringPeriod` reaches the
threshold and the most recent one is younger than `resetTimeout`. -/
theorem checkCircuitBreaker_entry_formula (b : BreakerEntry) (workerId : String) (now : Int) :
    checkCircuitBreaker [(workerId, b)] workerId now = false ↔
      (b.config.failureThreshold ≤
          (b.failures.filter (fun t => now - t < b.config.monitoringPeriod)).length ∧
        ∃ m, (b.failures.filter (fun t => now - t < b.config.monitoringPeriod)).max? = some m ∧
          now - m < b.config.resetTimeout) := by
  unfold checkCircuitBreaker
  rw [show mapGet [(workerId, b)] workerId = some b from by simp [mapGet]]
  dsimp only
  by_cases hth : b.config.failureThreshold ≤
      (b.failures.filter (fun t => now - t < b.config.monitoringPeriod)).length
  · rw [if_pos hth]
    cases hmax : (b.failures.filter (fun t => now - t < b.config.monitoringPeriod)).max? with
    | none => simp [hth, hmax]
    | some m =>
        simp only [hmax, hth, true_and]
        constructor
        · intro hdec
          refine ⟨m, rfl, ?_⟩
          by_contra hcon
          rw [not_lt] at hcon
          simp [hcon] at hdec
        · rintro ⟨m', hm', hlt⟩
          rw [Option.some.injEq] at hm'
          subst hm'
          simp [not_le.mpr hlt]
  · rw [if_neg hth]
    simp [hth]

/-- C2: `findAvailableWorker` never filters by `worker.concurrency`, so
a single dispatch pass assigns two jobs to a worker declared with
`concurrency: 1` even though the global cap (10) is far from reached —
the invariant `|activeJobs| <= concurrency` is violated.  (The base
`RequestQueue.findAvailableWorker` does check
`activeJobs.size < worker.concurrency`; this class dropped the check.) -/
theorem worker_overcommitted_beyond_concurrency :
    (findWorker (processNextJobs exCfg 0 exStateOvercommit) "w1").map
        (fun w => w.activeJobs) = some ["a", "c"] ∧
    exWorker.concurrency = 1 ∧
    (processNextJobs exCfg 0 exStateOvercommit).processingJobs = ["a", "c"] := by
  constructor
  · rfl
  · constructor <;> rfl

/-- C3: the pass does stable-sort the waiting queue to `9, 5, 3`, but the
`for...of` loop splices the dispatched job out of the array it is
iterating, so after assigning the priority-9 job the iterator skips the
priority-5 job and assigns the priority-3 job next; the priority-5 job is
left waiting for a later pass.  Processing therefore starts in order
`9, 3, 5`, not the claimed `9, 5, 3`. -/
theorem dispatch_skips_after_splice :
    (sortJobs exStateOrdering.waitingQueue).map (fun j => j.id) = ["b", "c", "a"] ∧
    (processNextJobs exCfg 0 exStateOrdering).startedOrder = [("b", "w1"), ("a", "w1")] ∧
    (processNextJobs exCfg 0 exStateOrdering).waitingQueue.map (fun j => j.id) = ["c"] := by
  refine ⟨rfl, rfl, rfl⟩

/-- C8: a cleanup pass drops a 25-hour-old completed job from the
`completedJobs` record list but leaves it in the `jobs` map, because the
purge loop walks the **already filtered** lists, whose members all fail
the age test by construction.  Waiting/processing collections are
untouched (that half of the claim holds). -/
theorem cleanup_leaves_job_store :
    (cleanup exCleanupState exCleanupNow).completedJobs = [] ∧
    mapGet (cleanup exCleanupState exCleanupNow).jobs "old" = some exJobOld ∧
    (cleanup exCleanupState exCleanupNow).waitingQueue = exCleanupState.waitingQueue ∧
    (cleanup exCleanupState exCleanupNow).processingJobs = exCleanupState.processingJobs := by
  refine ⟨rfl, rfl, rfl, rfl⟩

/-- C9 counterexample: recording a failure for a worker whose decayed
rate is already 1 yields `failureRate = 1 > 0.5` with status
`unhealthy`, not `degraded` — refuting "degraded exactly when the
resulting failureRate exceeds 0.5" (the code reserves `degraded` for
rates at or below 0.5 and uses `unhealthy` above it). -/
theorem recordFailure_degraded_counterexample :
    (1/2 : ℚ) < (recordFailureHealth exHealthSaturated).failureRate ∧
    (recordFailureHealth exHealthSaturated).status = .unhealthy ∧
    (recordFailureHealth exHealthSaturated).status ≠ .degraded := by
  have hs : (recordFailureHealth exHealthSaturated).status = .unhealthy := by
    norm_num [recordFailureHealth, recordFailureRate, exHealthSaturated]
  refine ⟨by norm_num [recordFailureHealth, recordFailureRate, exHealthSaturated], hs, ?_⟩
  rw [hs]
  exact fun hcon => nomatch hcon

/-- C9 (amended): recording a handler failure updates the decayed rate to
`min(1, failureRate * 0.9 + 0.1)` and sets the status to `unhealthy`
exactly when the resulting rate exceeds 0.5, and to `degraded`
otherwise. -/
theorem recordFailure_health_spec (h : WorkerHealth) :
    (recordFailureHealth h).failureRate = min 1 (h.failureRate * (9/10) + 1/10) ∧
    ((recordFailureHealth h).status = .unhealthy ↔
      (1/2 : ℚ) < min 1 (h.failureRate * (9/10) + 1/10)) ∧
    ((recordFailureHealth h).status = .degraded ↔
      min 1 (h.failureRate * (9/10) + 1/10) ≤ (1/2 : ℚ)) := by
  unfold recordFailureHealth recordFailureRate
  dsimp only
  by_cases hc : (1/2 : ℚ) < min 1 (h.failureRate * (9/10) + 1/10)
  · rw [if_pos hc]
    refine ⟨rfl, Iff.intro (fun _ => hc) (fun _ => rfl), Iff.intro ?_ ?_⟩
    · intro hcon
      exact nomatch hcon
    · intro hle
      exact absurd hc (not_lt.mpr hle)
  · rw [if_neg hc]
    refine ⟨rfl, Iff.intro ?_ ?_, Iff.intro (fun _ => not_lt.mp hc) (fun _ => rfl)⟩
    · intro hcon
      exact nomatch hcon
    · intro hlt
      exact absurd hlt hc

/-- Both health updates keep a rate inside `[0, 1]` inside `[0, 1]`. -/
theorem applyHealthOp_bounds (r : ℚ) (hr0 : 0 ≤ r) (hr1 : r ≤ 1) (op : HealthOp) :
    0 ≤ applyHealthOp r op ∧ applyHealthOp r op ≤ 1 := by
  cases op with
  | success =>
      unfold applyHealthOp recordSuccessRate
      exact ⟨le_max_left 0 _, max_le (by norm_num) (by nlinarith)⟩
  | failure =>
      unfold applyHealthOp recordFailureRate
      exact ⟨le_min (by nlinarith) (by nlinarith), min_le_left 1 _⟩

/-- Any interleaving started inside `[0, 1]` stays inside `[0, 1]`. -/
theorem runHealthOps_bounds (ops : List HealthOp) :
    ∀ r : ℚ, 0 ≤ r → r ≤ 1 → 0 ≤ runHealthOps r ops ∧ runHealthOps r ops ≤ 1 := by
  induction ops with
  | nil => exact fun r hr0 hr1 => ⟨hr0, hr1⟩
  | cons op rest ih =>
      intro r hr0 hr1
      have hop := applyHealthOp_bounds r hr0 hr1 op
      simpa [runHealthOps] using ih (applyHealthOp r op) hop.1 hop.2

/-- C10: starting from the registration value 0, every interleaving of
`recordSuccess` and `recordFailure` observations keeps the tracked
`failureRate` within `[0, 1]`. -/
theorem failureRate_within_unit_interval (ops : List HealthOp) :
    0 ≤ runHealthOps 0 ops ∧ runHealthOps 0 ops ≤ 1 :=
  runHealthOps_bounds ops 0 le_rfl zero_le_one

/-- Helper for C4: the retry loop with the spec's parameters
(`delay = 100`, `multiplier = 2`, `maxAttempts = 3`) never pushes the
attempt counter past 3, whatever the horizon. -/
theorem failLoop_attempts_le (fuel a : Nat) (ha : a < 3) :
    (failLoop 2 3 100 fuel a).2 ≤ 3 := by
  induction fuel generalizing a with
  | zero => simpa [failLoop] using ha.le
  | succ n ih =>
      unfold failLoop
      by_cases hlt : a + 1 < 3
      · simpa [hlt] using ih (a + 1) hlt
      · simp [hlt]
        omega

/-- C4: on a handler failure `handleJobError` retries with delay
`delay * multiplier ^ (attempts - 1)` when attempts remain, and
otherwise marks `failedAt`, schedules nothing and emits the permanent
failure; with `delay = 100`, `multiplier = 2`, `maxAttempts = 3` and an
always-failing handler the scheduled retry delays are exactly
`[100, 200]`, the job ends after exactly 3 attempts, and no horizon
ever produces a fourth attempt. -/
theorem handleJobError_spec (mult : Nat) (job : QueueJob) (msg : String) (now : Int) :
    (job.attempts < job.maxAttempts →
      handleJobError mult job msg now =
        ({ job with
            error := some msg
            scheduledAt := now + (job.delay * mult ^ (job.attempts - 1) : Nat) },
         .retryScheduled (job.delay * mult ^ (job.attempts - 1)))) ∧
    (job.maxAttempts ≤ job.attempts →
      handleJobError mult job msg now =
        ({ job with error := some msg, failedAt := some now }, .failedPermanently)) ∧
    (∀ n : Nat, failLoop 2 3 100 (n + 3) 0 = ([100, 200], 3)) ∧
    (∀ fuel : Nat, (failLoop 2 3 100 fuel 0).2 ≤ 3) := by
  refine ⟨?_, ?_, ?_, ?_⟩
  · intro hlt
    simp [handleJobError, hlt]
  · intro hge
    simp [handleJobError, not_lt.mpr hge]
  · intro n
    simp [failLoop]
  · intro fuel
    exact failLoop_attempts_le fuel 0 (by norm_num)

/-- Witness for C4 at a concrete mid-retry job: one failed attempt out
of three with base delay 100 reschedules at `now + 100` and emits the
retry outcome. -/
theorem handleJobError_spec_witness :
    handleJobError 2 exJobRetry "boom" 1000 =
      ({ exJobRetry with error := some "boom", scheduledAt := 1100 },
       .retryScheduled 100) := by
  have hmain := (handleJobError_spec 2 exJobRetry "boom" 1000).1 (by norm_num [exJobRetry, mkJob])
  simpa [exJobRetry, mkJob] using hmain

/-- A rejected check leaves the store untouched: the only `false` branch
of `checkRateLimit` returns before mutating. -/
theorem checkRateLimit_false_store (cfg : RateLimitConfig)
    (store : List (String × RateLimitEntry)) (key : String) (now : Int)
    (h : (checkRateLimit cfg store key now).1 = false) :
    (checkRateLimit cfg store key now).2 = store := by
  unfold checkRateLimit at h ⊢
  cases hget : mapGet store key with
  | none => rw [hget] at h; simp at h
  | some limit =>
      rw [hget] at h
      dsimp only at h ⊢
      by_cases hreset : limit.resetTime ≤ now
      · rw [if_pos hreset] at h; simp at h
      · rw [if_neg hreset] at h ⊢
        by_cases hmax : cfg.maxRequests ≤ limit.count
        · rw [if_pos hmax]
        · rw [if_neg hmax] at h; simp at h

/-- C6: the admission check resets the window to
`{count = 1, resetTime = now + windowMs}` and admits when no window
exists or the window has expired; inside an open window it admits and
increments the count exactly when `count < maxRequests`, rejecting
without mutation otherwise.  Concretely, with `window = 1000` and
`max = 2`, the third submission under one key inside the window is
rejected and a submission at the window boundary succeeds. -/
theorem checkRateLimit_spec :
    (∀ (cfg : RateLimitConfig) (store : List (String × RateLimitEntry)) (key : String) (now : Int),
        mapGet store key = none →
          checkRateLimit cfg store key now =
            (true, mapSet store key { count := 1, resetTime := now + cfg.windowMs })) ∧
    (∀ (cfg : RateLimitConfig) (store : List (String × RateLimitEntry)) (key : String) (now : Int)
        (limit : RateLimitEntry),
        mapGet store key = some limit → limit.resetTime ≤ now →
          checkRateLimit cfg store key now =
            (true, mapSet store key { count := 1, resetTime := now + cfg.windowMs })) ∧
    (∀ (cfg : RateLimitConfig) (store : List (String × RateLimitEntry)) (key : String) (now : Int)
        (limit : RateLimitEntry),
        mapGet store key = some limit → now < limit.resetTime →
          (((checkRateLimit cfg store key now).1 = true ↔ limit.count < cfg.maxRequests) ∧
            (limit.count < cfg.maxRequests →
              checkRateLimit cfg store key now =
                (true, mapSet store key { limit with count := limit.count + 1 })) ∧
            (cfg.maxRequests ≤ limit.count →
              checkRateLimit cfg store key now = (false, store)))) ∧
    ((checkRateLimit rlCfg [] "k" 0).1 = true ∧
      (checkRateLimit rlCfg rlStore1 "k" 1).1 = true ∧
      (checkRateLimit rlCfg rlStore2 "k" 2).1 = false ∧
      (checkRateLimit rlCfg rlStore2 "k" 2).2 = rlStore2 ∧
      (checkRateLimit rlCfg rlStore2 "k" 1000).1 = true) := by
  refine ⟨?_, ?_, ?_, ?_⟩
  · intro cfg store key now hget
    unfold checkRateLimit
    rw [hget]
  · intro cfg store key now limit hget hreset
    unfold checkRateLimit
    rw [hget]
    dsimp only
    rw [if_pos hreset]
  · intro cfg store key now limit hget hopen
    unfold checkRateLimit
    rw [hget]
    dsimp only
    rw [if_neg (not_le.mpr hopen)]
    by_cases hmax : cfg.maxRequests ≤ limit.count
    · rw [if_pos hmax]
      refine ⟨?_, fun hlt => absurd hmax (not_le.mpr hlt), fun _ => rfl⟩
      simp only [Prod.fst]
      constructor
      · intro hcon
        exact absurd hcon (by simp)
      · intro hlt
        exact absurd hmax (not_le.mpr hlt)
    · rw [if_neg hmax]
      exact ⟨by simp [not_le.mp hmax], fun _ => rfl, fun hge => absurd hge hmax⟩
  · refine ⟨rfl, rfl, rfl, rfl, rfl⟩

/-- Witness for C6: an unseen key opens a fresh window with count 1. -/
theorem checkRateLimit_spec_witness :
    checkRateLimit rlCfg [] "fresh" 7 =
      (true, [("fresh", { count := 1, resetTime := 1007 })]) := by
  have hmain := checkRateLimit_spec.1 rlCfg [] "fresh" 7 rfl
  simpa [rlCfg, mapSet] using hmain

/-- C7: when the rate-limit gate rejects, `add` throws before creating
anything: the `jobs` map, the waiting queue, the deferral timers and the
rate-limit store are all unchanged; only the `rateLimitHits` counter
moves. -/
theorem add_rejection_atomic (cfg : RateLimitConfig) (s : SubmitState) (jobType : String)
    (dataUserId dataModel : Option String) (opts : AddOptions) (genId : String)
    (now : Int) (key : String)
    (h : (add cfg s jobType dataUserId dataModel opts genId now).1 = .rateLimitExceeded key) :
    (add cfg s jobType dataUserId dataModel opts genId now).2.jobs = s.jobs ∧
    (add cfg s jobType dataUserId dataModel opts genId now).2.waitingQueue = s.waitingQueue ∧
    (add cfg s jobType dataUserId dataModel opts genId now).2.pendingTimers = s.pendingTimers ∧
    (add cfg s jobType dataUserId dataModel opts genId now).2.rateLimitStore = s.rateLimitStore ∧
    (add cfg s jobType dataUserId dataModel opts genId now).2.rateLimitHits = s.rateLimitHits + 1 := by
  unfold add at h ⊢
  by_cases hc : (checkRateLimit cfg s.rateLimitStore
      (jsOrStr opts.rateLimitKey (generateRateLimitKey jobType dataUserId dataModel)) now).1 = false
  · rw [if_pos hc] at h ⊢
    exact ⟨rfl, rfl, rfl, checkRateLimit_false_store _ _ _ _ hc, rfl⟩
  · rw [if_neg hc] at h
    dsimp only at h
    split at h <;> simp at h

/-- Witness for C7: submitting under the saturated key `k`
(`count = 2 = maxRequests`, window still open at `t = 5`) changes
nothing but the hit counter. -/
theorem add_rejection_atomic_witness :
    (add rlCfg exSubmitState "llm_request" none none exAddOpts "gid" 5).2.jobs =
        exSubmitState.jobs ∧
    (add rlCfg exSubmitState "llm_request" none none exAddOpts "gid" 5).2.waitingQueue =
        exSubmitState.waitingQueue ∧
    (add rlCfg exSubmitState "llm_request" none none exAddOpts "gid" 5).2.pendingTimers =
        exSubmitState.pendingTimers ∧
    (add rlCfg exSubmitState "llm_request" none none exAddOpts "gid" 5).2.rateLimitStore =
        exSubmitState.rateLimitStore ∧
    (add rlCfg exSubmitState "llm_request" none none exAddOpts "gid" 5).2.rateLimitHits =
        exSubmitState.rateLimitHits + 1 :=
  add_rejection_atomic rlCfg exSubmitState "llm_request" none none exAddOpts "gid" 5 "k" rfl

/-- The initial state satisfies the location invariant. -/
theorem lockInv_init : lockInv initLockState := by
  refine ⟨?_, ?_, ?_⟩
  · intro x
    simp [initLockState]
  · intro w j hmem
    exact absurd hmem (Multiset.not_mem_zero _)
  · intro w j hget
    simp [initLockState, mapGet] at hget

/-- Releasing a lock (completion, permanent failure or retry hand-off)
keeps active-membership registered in `jobLocks`. -/
theorem lockRelease_registered {s : LockState}
    (h1 : ∀ x : String,
      s.waiting.count x + s.pending.count x + (s.active.map Prod.snd).count x ≤ 1)
    (h2 : ∀ w j, (w, j) ∈ s.active → mapGet s.locks j = some w)
    (h3 : ∀ w j, mapGet s.locks j = some w → (w, j) ∈ s.active)
    {j w : String} (hget : mapGet s.locks j = some w) :
    ∀ w' j', (w', j') ∈ s.active.erase (w, j) →
      mapGet (mapDelete s.locks j) j' = some w' := by
  intro w' j' hmem
  have hactive : (w, j) ∈ s.active := h3 w j hget
  have hcons := Multiset.cons_erase hactive
  have hmem' : (w', j') ∈ s.active := Multiset.mem_of_le (Multiset.erase_le _ _) hmem
  have hg := h2 w' j' hmem'
  by_cases hj : j' = j
  · subst hj
    have hww : w = w' := Option.some.inj (hget.symm.trans hg)
    subst hww
    exfalso
    have h1j := h1 j'
    have hcount : 2 ≤ (s.active.map Prod.snd).count j' := by
      rw [← hcons, Multiset.map_cons, Multiset.count_cons]
      have hone : 0 < ((s.active.erase (w, j')).map Prod.snd).count j' :=
        Multiset.count_pos.mpr (Multiset.mem_map_of_mem Prod.snd hmem)
      simp
      omega
    omega
  · rw [mapGet_mapDelete_ne _ (Ne.symm hj)]
    exact hg

/-- Releasing a lock keeps every held lock pointing at an active
assignment. -/
theorem lockRelease_active {s : LockState}
    (h3 : ∀ w j, mapGet s.locks j = some w → (w, j) ∈ s.active)
    {j w : String} :
    ∀ w' j', mapGet (mapDelete s.locks j) j' = some w' →
      (w', j') ∈ s.active.erase (w, j) := by
  intro w' j' hget'
  by_cases hj : j' = j
  · subst hj
    rw [mapGet_mapDelete_self] at hget'
    exact absurd hget' (by simp)
  · rw [mapGet_mapDelete_ne _ (Ne.symm hj)] at hget'
    have hmem := h3 w' j' hget'
    have hne : (w', j') ≠ (w, j) := fun hcon => hj (congrArg Prod.snd hcon)
    exact (Multiset.mem_erase_of_ne hne).mpr hmem

/-- Every atomic segment of the class preserves the location invariant. -/
theorem lockInv_preserved {s s' : LockState} (hinv : lockInv s) (hstep : QStep s s') :
    lockInv s' := by
  obtain ⟨h1, h2, h3⟩ := hinv
  cases hstep with
  | addFresh j hw hp hl ha =>
      refine ⟨?_, h2, h3⟩
      intro x
      dsimp only
      rw [Multiset.count_cons]
      by_cases hx : x = j
      · subst hx
        have e1 : s.waiting.count x = 0 := Multiset.count_eq_zero.mpr hw
        have e2 : s.pending.count x = 0 := Multiset.count_eq_zero.mpr hp
        have e3 : (s.active.map Prod.snd).count x = 0 := by
          rw [Multiset.count_eq_zero]
          intro hmem
          obtain ⟨p, hpmem, hsnd⟩ := Multiset.mem_map.mp hmem
          obtain ⟨pw, pj⟩ := p
          cases hsnd
          exact ha pw hpmem
        simp [e1, e2, e3]
      · simpa [hx] using h1 x
  | dispatchAssign j w hjw hl =>
      have hcons := Multiset.cons_erase hjw
      refine ⟨?_, ?_, ?_⟩
      · intro x
        have h1x := h1 x
        rw [← hcons, Multiset.count_cons] at h1x
        dsimp only
        rw [Multiset.map_cons, Multiset.count_cons]
        by_cases hx : x = j <;> simp [hx] at h1x ⊢ <;> omega
      · intro w' j' hmem
        dsimp only at hmem ⊢
        rcases Multiset.mem_cons.mp hmem with heq | hmem'
        · rw [Prod.mk.injEq] at heq
          obtain ⟨hw', hj'⟩ := heq
          subst hw'
          subst hj'
          exact mapGet_mapSet_self _ _ _
        · by_cases hj : j' = j
          · subst hj
            have := h2 w' j' hmem'
            rw [hl] at this
            simp at this
          · rw [mapGet_mapSet_ne _ _ (Ne.symm hj)]
            exact h2 w' j' hmem'
      · intro w' j' hget
        dsimp only at hget ⊢
        by_cases hj : j' = j
        · subst hj
          rw [mapGet_mapSet_self] at hget
          have hww : w = w' := Option.some.inj hget
          subst hww
          exact Multiset.mem_cons_self _ _
        · rw [mapGet_mapSet_ne _ _ (Ne.symm hj)] at hget
          exact Multiset.mem_cons_of_mem (h3 w' j' hget)
  | dispatchDrop j w' hjw hl =>
      refine ⟨?_, h2, h3⟩
      intro x
      have hle : (s.waiting.erase j).count x ≤ s.waiting.count x :=
        Multiset.count_le_of_le x (Multiset.erase_le j s.waiting)
      have h1x := h1 x
      dsimp only
      omega
  | breakerDefer j hjw =>
      refine ⟨?_, h2, h3⟩
      intro x
      have hcons := Multiset.cons_erase hjw
      have h1x := h1 x
      rw [← hcons, Multiset.count_cons] at h1x
      dsimp only
      rw [Multiset.count_cons]
      by_cases hx : x = j <;> simp [hx] at h1x ⊢ <;> omega
  | finish j w hget =>
      have hactive : (w, j) ∈ s.active := h3 w j hget
      have hcons := Multiset.cons_erase hactive
      refine ⟨?_, ?_, ?_⟩
      · intro x
        have h1x := h1 x
        rw [← hcons, Multiset.map_cons, Multiset.count_cons] at h1x
        dsimp only
        by_cases hx : x = j
        · subst hx
          simp at h1x
          omega
        · simp [hx] at h1x
          omega
      · exact lockRelease_registered h1 h2 h3 hget
      · exact lockRelease_active h3
  | failRetry j w hget =>
      have hactive : (w, j) ∈ s.active := h3 w j hget
      have hcons := Multiset.cons_erase hactive
      refine ⟨?_, ?_, ?_⟩
      · intro x
        have h1x := h1 x
        rw [← hcons, Multiset.map_cons, Multiset.count_cons] at h1x
        dsimp only
        rw [Multiset.count_cons]
        by_cases hx : x = j <;> simp [hx] at h1x ⊢ <;> omega
      · exact lockRelease_registered h1 h2 h3 hget
      · exact lockRelease_active h3
  | timerFire j hjp =>
      refine ⟨?_, h2, h3⟩
      intro x
      have hcons := Multiset.cons_erase hjp
      have h1x := h1 x
      rw [← hcons, Multiset.count_cons] at h1x
      dsimp only
      rw [Multiset.count_cons]
      by_cases hx : x = j <;> simp [hx] at h1x ⊢ <;> omega

/-- Every reachable state satisfies the location invariant. -/
theorem qreachable_lockInv {s : LockState} (h : QReachable s) : lockInv s := by
  induction h with
  | init => exact lockInv_init
  | step _ hstep ih => exact lockInv_preserved ih hstep

/-- C5: in every reachable state, a job id sitting in the waiting queue
is held by no worker's `activeJobs`, and a job id is in at most one
worker's `activeJobs` — membership is registered in `jobLocks`, whose
single entry per id forces the worker to be unique even when racing
dispatch triggers target the same job. -/
theorem jobLock_exclusive (s : LockState) (hs : QReachable s) (j : String) :
    (j ∈ s.waiting → ∀ w, (w, j) ∉ s.active) ∧
    (∀ w₁ w₂, (w₁, j) ∈ s.active → (w₂, j) ∈ s.active → w₁ = w₂) := by
  obtain ⟨h1, h2, _⟩ := qreachable_lockInv hs
  constructor
  · intro hw w hmem
    have hcnt := h1 j
    have hw1 : 0 < s.waiting.count j := Multiset.count_pos.mpr hw
    have ha1 : 0 < (s.active.map Prod.snd).count j :=
      Multiset.count_pos.mpr (Multiset.mem_map_of_mem Prod.snd hmem)
    omega
  · intro w₁ w₂ hm₁ hm₂
    exact Option.some.inj ((h2 w₁ j hm₁).symm.trans (h2 w₂ j hm₂))

/-- Witness for C5: after submitting the fresh job `j1`, the reachable
state has `j1` waiting and held by no worker. -/
theorem jobLock_exclusive_witness : ("w1", "j1") ∉ exLockState.active := by
  have hstep : QStep initLockState exLockState :=
    QStep.addFresh initLockState "j1" (Multiset.not_mem_zero _)
      (Multiset.not_mem_zero _) rfl (fun w => Multiset.not_mem_zero _)
  exact (jobLock_exclusive exLockState (QReachable.step QReachable.init hstep) "j1").1
    (by simp [exLockState]) "w1"
